import Mathlib

/-!
Verification of the LLAMBO population / selection engine.

Shallow embedding of `src/llamea/population/population.py`: the
family-competition selection strategy, the diversity-aware selection,
the max-diversity parent pairing, the code-diff similarity engine and
the persistence error handling, together with proofs of the spec's
claims about them.

Python floats (fitness, scores, similarities) are modelled as rationals
(`ℚ`); `None`/NaN results are modelled with `Option`.  Python's stable
`sorted(key=..., reverse=True)` is modelled with Mathlib's stable
`List.insertionSort` and the corresponding descending relation.
-/

namespace LLAMBO

/-- Modelled from the spec: the `Individual` record (`src/llamea/individual.py`
is not among the sources).  Only the fields the selection logic reads are
modelled: the process-unique `id`, the `parent_id` lineage list (empty for
generation-0 individuals) and the scalar `fitness`. -/
structure Individual where
  id : ℕ
  parent_id : List ℕ
  fitness : ℚ
deriving Repr, DecidableEq

/-- Python's stable `sorted(ids, key=lambda x: fitness(x), reverse=True)`
(population.py line 279): a stable sort, descending by fitness. -/
def sortDescByFitness (fit : ℕ → ℚ) (l : List ℕ) : List ℕ :=
  l.insertionSort (fun a b => fit b ≤ fit a)

/-- Embedding of `_family_selection(child, all_ind_map, parent_size_threshold)`
(population.py lines 267–285).  `fit` models `lambda x: all_ind_map[x].fitness`;
the claims all assume the map contains the whole family, which the total
function captures.  Returns `(_selected_list, _unselected_list)`. -/
def familySelection (child : Individual) (fit : ℕ → ℚ)
    (parent_size_threshold : ℕ) : List ℕ × List ℕ :=
  let child_id := child.id
  if child.parent_id.length = 0 then
    ([child_id], [])
  else
    let ind_ids := child_id :: child.parent_id
    if parent_size_threshold < child.parent_id.length then
      (ind_ids, [])
    else
      let sorted_ids := sortDescByFitness fit ind_ids
      let child_index := sorted_ids.indexOf child_id
      (sorted_ids.take (child_index + 1), sorted_ids.drop (child_index + 1))

/-- The default `parent_size_threshold=1` of `family_competition_selection_fn`
(population.py line 266). -/
def default_parent_size_threshold : ℕ := 1

/-! ### Helper lemmas about the stable descending sort -/

lemma fitDescTotal (fit : ℕ → ℚ) : IsTotal ℕ (fun a b => fit b ≤ fit a) :=
  ⟨fun a b => (le_total (fit b) (fit a)).imp id id⟩

lemma fitDescTrans (fit : ℕ → ℚ) : IsTrans ℕ (fun a b => fit b ≤ fit a) :=
  ⟨fun _ _ _ h1 h2 => le_trans h2 h1⟩

lemma sortDescByFitness_perm (fit : ℕ → ℚ) (l : List ℕ) :
    (sortDescByFitness fit l).Perm l :=
  List.perm_insertionSort _ l

lemma sortDescByFitness_pairwise (fit : ℕ → ℚ) (l : List ℕ) :
    (sortDescByFitness fit l).Pairwise (fun a b => fit b ≤ fit a) := by
  haveI := fitDescTotal fit
  haveI := fitDescTrans fit
  exact List.sorted_insertionSort _ l

/-- In a list sorted descending by fitness, an element `c` occurring exactly
once whose fitness is strictly below that of every other element sits at the
very last position. -/
lemma strictMin_indexOf_last {fit : ℕ → ℚ} {c : ℕ} :
    ∀ {s : List ℕ}, s.Pairwise (fun a b => fit b ≤ fit a) →
      c ∈ s → s.count c = 1 → (∀ y ∈ s, y ≠ c → fit c < fit y) →
      s.indexOf c + 1 = s.length := by
  intro s
  induction s with
  | nil => intro _ hc; exact absurd hc (List.not_mem_nil c)
  | cons a t ih =>
    intro hp hc hcount hmin
    by_cases hac : a = c
    · subst hac
      have ht : t = [] := by
        rcases t with _ | ⟨y, t'⟩
        · rfl
        · exfalso
          have h1 : fit y ≤ fit a := (List.pairwise_cons.mp hp).1 y (by simp)
          have hya : y ≠ a := by
            intro he
            subst he
            have : (y :: y :: t').count y = 1 := hcount
            simp [List.count_cons] at this
          have h2 : fit a < fit y := hmin y (by simp) hya
          linarith
      subst ht
      simp
    · have hct : c ∈ t := by
        rcases List.mem_cons.mp hc with h | h
        · exact absurd h.symm hac
        · exact h
      have hidx : (a :: t).indexOf c = t.indexOf c + 1 :=
        List.indexOf_cons_ne t hac
      have hcnt : t.count c = 1 := by
        have := hcount
        rwa [List.count_cons_of_ne (fun h => hac h.symm)] at this
      have := ih (List.pairwise_cons.mp hp).2 hct hcnt
        (fun y hy hyc => hmin y (List.mem_cons_of_mem a hy) hyc)
      simp [hidx, List.length_cons]
      omega

/-- The element at an element's own index survives `take (index + 1)`. -/
lemma mem_take_indexOf {c : ℕ} :
    ∀ {s : List ℕ}, c ∈ s → c ∈ s.take (s.indexOf c + 1) := by
  intro s
  induction s with
  | nil => intro hc; exact absurd hc (List.not_mem_nil c)
  | cons a t ih =>
    intro hc
    by_cases hac : a = c
    · subst hac
      simp
    · have hct : c ∈ t := by
        rcases List.mem_cons.mp hc with h | h
        · exact absurd h.symm hac
        · exact h
      rw [List.indexOf_cons_ne t hac]
      exact List.mem_cons_of_mem a (ih hct)

/-- An element occurring at most once never survives `drop (index + 1)`. -/
lemma not_mem_drop_indexOf {c : ℕ} :
    ∀ {s : List ℕ}, s.count c ≤ 1 → c ∉ s.drop (s.indexOf c + 1) := by
  intro s
  induction s with
  | nil => intro _ h; exact absurd h (List.not_mem_nil c)
  | cons a t ih =>
    intro hcount
    by_cases hac : a = c
    · subst hac
      have : t.count a = 0 := by
        have := hcount
        simp [List.count_cons] at this
        omega
      simp [List.indexOf_cons_self, List.count_eq_zero.mp this]
    · have hcnt : t.count c ≤ 1 := by
        have := hcount
        rwa [List.count_cons_of_ne (fun h => hac h.symm)] at this
      rw [List.indexOf_cons_ne t hac]
      simpa using ih hcnt

/-! ### Claims C1, C3 and C10: the per-family competition -/

/-- C1 (counterexample): the claim says an offspring strictly weaker than both
of its two parents is placed in the substituted-out list.  At the concrete
family — child `0` with parents `1, 2`, fitness `fit i = i` (so the child is
strictly weaker than both parents) and `parent_size_threshold = 2` so that the
ranked competition actually runs — the substituted-out list does not contain
the offspring: it is empty. -/
theorem C1_counterexample :
    ((fun i => (i : ℚ)) 0 < (fun i => (i : ℚ)) 1 ∧
     (fun i => (i : ℚ)) 0 < (fun i => (i : ℚ)) 2) ∧
    (0 : ℕ) ∉ (familySelection ⟨0, [1, 2], 0⟩ (fun i => (i : ℚ)) 2).2 := by
  constructor
  · constructor <;> norm_num
  · decide

/-- C1 (amended): for every offspring with exactly two parents whose fitness is
strictly lower than both parents' fitness, the per-family competition keeps the
whole family: the selected list is a permutation of the offspring and its two
parents, and the substituted-out list is empty (for every threshold — either
the family-size skip fires, or the offspring ranks last so nobody is ranked
below it). -/
theorem C1_amended (child : Individual) (p q : ℕ) (fit : ℕ → ℚ) (t : ℕ)
    (hpar : child.parent_id = [p, q])
    (hp : fit child.id < fit p) (hq : fit child.id < fit q) :
    (familySelection child fit t).1.Perm [child.id, p, q] ∧
    (familySelection child fit t).2 = [] := by
  have hcp : child.id ≠ p := fun h => absurd hp (by rw [h]; exact lt_irrefl _)
  have hcq : child.id ≠ q := fun h => absurd hq (by rw [h]; exact lt_irrefl _)
  unfold familySelection
  rw [hpar]
  by_cases ht : t < 2
  · simp [ht]
  · have h2 : ¬((2 : ℕ) = 0) := by omega
    simp only [List.length_cons, List.length_nil, if_neg h2, Nat.zero_add]
    rw [if_neg (by omega : ¬ t < 0 + 1 + 1)]
    set s := sortDescByFitness fit (child.id :: [p, q]) with hs
    have hperm : s.Perm (child.id :: [p, q]) := sortDescByFitness_perm _ _
    have hpw := sortDescByFitness_pairwise fit (child.id :: [p, q])
    have hc : child.id ∈ s := hperm.mem_iff.mpr (by simp)
    have hcount : s.count child.id = 1 := by
      rw [hperm.count_eq]
      simp [List.count_cons, hcp, hcq]
    have hmin : ∀ y ∈ s, y ≠ child.id → fit child.id < fit y := by
      intro y hy hyne
      have hmem : y ∈ (child.id :: [p, q]) := hperm.mem_iff.mp hy
      simp only [List.mem_cons, List.mem_singleton] at hmem
      rcases hmem with h | h | h
      · exact absurd h hyne
      · rw [h]; exact hp
      · simp at h
        rw [h]; exact hq
    have hlast := strictMin_indexOf_last hpw hc hcount hmin
    constructor
    · rw [hlast, List.take_length]
      exact hperm
    · rw [hlast, List.drop_length]

/-- C1 (amended) at a concrete input: child `0` with parents `1, 2`, fitness
`fit i = i`, threshold `2` (ranked branch). -/
theorem C1_amended_witness :
    (familySelection ⟨0, [1, 2], 0⟩ (fun i => (i : ℚ)) 2).1.Perm [0, 1, 2] ∧
    (familySelection ⟨0, [1, 2], 0⟩ (fun i => (i : ℚ)) 2).2 = [] :=
  C1_amended ⟨0, [1, 2], 0⟩ 1 2 (fun i => (i : ℚ)) 2 rfl (by norm_num) (by norm_num)

/-- C3: for every offspring with exactly two parents whose fitness is strictly
higher than both parents' fitness, family competition (at the source's default
`parent_size_threshold = 1`) retains the whole family: the selected list is
exactly the offspring followed by its two parents and the substituted-out list
is empty (two parents exceed the threshold, so the competition is skipped). -/
theorem C3_fitter_offspring_family_retained (child : Individual) (p q : ℕ)
    (fit : ℕ → ℚ) (hpar : child.parent_id = [p, q])
    (_hp : fit p < fit child.id) (_hq : fit q < fit child.id) :
    (familySelection child fit default_parent_size_threshold).1 =
      [child.id, p, q] ∧
    (familySelection child fit default_parent_size_threshold).2 = [] := by
  unfold familySelection default_parent_size_threshold
  rw [hpar]
  simp

/-- C3 at a concrete input: child `9` (fitness `9`) with weaker parents
`1, 2` (fitness `1, 2`), at the default threshold. -/
theorem C3_witness :
    (familySelection ⟨9, [1, 2], 9⟩ (fun i => (i : ℚ))
      default_parent_size_threshold).1 = [9, 1, 2] ∧
    (familySelection ⟨9, [1, 2], 9⟩ (fun i => (i : ℚ))
      default_parent_size_threshold).2 = [] :=
  C3_fitter_offspring_family_retained ⟨9, [1, 2], 9⟩ 1 2 (fun i => (i : ℚ)) rfl
    (by norm_num) (by norm_num)

/-- C10 (counterexample): the claim quantifies over every child and every map
containing the child and its parents.  For the pathological child whose
`parent_id` list contains its own id (`child = ⟨0, [0], 0⟩`), at the default
threshold the ranked branch runs on the duplicated list `[0, 0]` and the
child's own id lands in its own unselected list. -/
theorem C10_counterexample :
    (0 : ℕ) ∈ (familySelection ⟨0, [0], 0⟩ (fun _ => (0 : ℚ))
      default_parent_size_threshold).2 := by
  decide

/-- C10 (amended): for every child whose own id does not occur among its
parent ids, every total fitness assignment and every threshold, the
per-family competition places the child's id in its selected list and never
in its own unselected list. -/
theorem C10_amended (child : Individual) (fit : ℕ → ℚ) (t : ℕ)
    (h : child.id ∉ child.parent_id) :
    child.id ∈ (familySelection child fit t).1 ∧
    child.id ∉ (familySelection child fit t).2 := by
  unfold familySelection
  by_cases h0 : child.parent_id.length = 0
  · simp [h0]
  · rw [if_neg h0]
    by_cases ht : t < child.parent_id.length
    · simp [ht]
    · rw [if_neg ht]
      set s := sortDescByFitness fit (child.id :: child.parent_id) with hs
      have hperm : s.Perm (child.id :: child.parent_id) :=
        sortDescByFitness_perm _ _
      have hc : child.id ∈ s := hperm.mem_iff.mpr (by simp)
      have hcount : s.count child.id ≤ 1 := by
        rw [hperm.count_eq, List.count_cons_self, List.count_eq_zero.mpr h]
      exact ⟨mem_take_indexOf hc, not_mem_drop_indexOf hcount⟩

/-- C10 (amended) at a concrete input: child `0` with parents `1, 2`,
fitness `fit i = i`, threshold `2`. -/
theorem C10_amended_witness :
    (0 : ℕ) ∈ (familySelection ⟨0, [1, 2], 0⟩ (fun i => (i : ℚ)) 2).1 ∧
    (0 : ℕ) ∉ (familySelection ⟨0, [1, 2], 0⟩ (fun i => (i : ℚ)) 2).2 :=
  C10_amended ⟨0, [1, 2], 0⟩ (fun i => (i : ℚ)) 2 (by decide)

/-! ### The code-diff similarity engine -/

/-- Splitting a character list at newline characters; always returns at least
one (possibly empty) part. -/
def splitNl : List Char → List (List Char)
  | [] => [[]]
  | c :: cs =>
    if c = '\n' then [] :: splitNl cs
    else
      match splitNl cs with
      | [] => [[c]]
      | l :: ls => (c :: l) :: ls

/-- Python `str.splitlines()` restricted to `"\n"` line boundaries: no entry is
produced for a trailing newline, and the empty string yields no lines. -/
def splitlines (s : String) : List String :=
  let parts := (splitNl s.data).map String.mk
  if parts.getLast? = some "" then parts.dropLast else parts

/-- Length of a longest common subsequence of two line lists.  This models the
matched-line count of the Python stdlib `difflib.ndiff` (standard-library
code, not part of this repository): the `"- "`/`"+ "` lines that
`code_compare` counts are the lines of either side left unmatched. -/
def lcsLen : List String → List String → ℕ
  | [], _ => 0
  | _ :: _, [] => 0
  | a :: as, b :: bs =>
    if a = b then lcsLen as bs + 1
    else max (lcsLen (a :: as) bs) (lcsLen as (b :: bs))
termination_by l1 l2 => l1.length + l2.length

/-- Embedding of `code_compare(code1, code2)` (population.py lines 214–219):
`diffs` is the number of added/removed lines of the diff (modelled via
`lcsLen`), `total_lines` the larger line count, and the similarity is
`(total_lines - diffs) / total_lines`, or `1` when both are empty. -/
def code_compare (code1 code2 : String) : ℚ :=
  let l1 := splitlines code1
  let l2 := splitlines code2
  let diffs := (l1.length - lcsLen l1 l2) + (l2.length - lcsLen l1 l2)
  let total_lines := max l1.length l2.length
  if total_lines ≠ 0 then
    ((total_lines : ℚ) - (diffs : ℚ)) / (total_lines : ℚ)
  else 1

/-- One assignment `m[i, j] = v` to the similarity matrix, modelled
functionally over the `np.zeros`-initialised matrix. -/
def updMat (M : ℕ → ℕ → ℚ) (i j : ℕ) (v : ℚ) : ℕ → ℕ → ℚ :=
  fun a b => if a = i ∧ b = j then v else M a b

/-- The double loop of `_code_diff_similarity` (population.py lines 221–225):
starting from `np.zeros((n, n))`, for every `(i, code1)` and `(j, code2)` it
writes `m[i, j] = code_compare(code1, code2)` and mirrors
`m[j, i] = m[i, j]`. -/
def codeDiffMatrix (codes : List String) : ℕ → ℕ → ℚ :=
  codes.enum.foldl
    (fun M p =>
      codes.enum.foldl
        (fun M' q =>
          let v := code_compare p.2 q.2
          updMat (updMat M' p.1 q.1 v) q.1 p.1 v)
        M)
    (fun _ _ => 0)

/-- Model of `np.mean(np.concatenate([m[i, :i], m[i, i+1:]]))` (population.py lines
228–231): the mean of row `i` with the diagonal entry removed; `none` models
the NaN that `np.mean` produces on an empty slice. -/
def meanExclSelf (M : ℕ → ℕ → ℚ) (n i : ℕ) : Option ℚ :=
  let vals := ((List.range n).filter (fun j => j ≠ i)).map (M i)
  if vals.length = 0 then none else some (vals.sum / (vals.length : ℚ))

/-- Embedding of `_code_diff_similarity(codes)` (population.py lines 208–233):
an empty input short-circuits to two empty arrays, otherwise the per-item mean
similarities (NaN as `none`) and the materialised `n × n` matrix are
returned. -/
def code_diff_similarity (codes : List String) :
    List (Option ℚ) × List (List ℚ) :=
  if codes = [] then ([], [])
  else
    let n := codes.length
    let M := codeDiffMatrix codes
    let matrix := (List.range n).map (fun i => (List.range n).map (fun j => M i j))
    let mean := (List.range n).map (fun i => meanExclSelf M n i)
    (mean, matrix)

/-- The mean-similarity computation of `_desc_similarity` (population.py lines
259–262) on `n` descriptions, parameterised by the cosine-similarity matrix
produced by the external sentence-embedding model (spec §6 treats the
embedding model as an injected capability). -/
def desc_similarity_mean (M : ℕ → ℕ → ℚ) (n : ℕ) : List (Option ℚ) :=
  (List.range n).map (fun i => meanExclSelf M n i)

/-! ### Claims C2, C5 and C6: the similarity engine -/

lemma lcsLen_self : ∀ l : List String, lcsLen l l = l.length
  | [] => by simp [lcsLen]
  | a :: as => by simp [lcsLen, lcsLen_self as]

/-- Two identical code strings compare as similarity `1`, also when both are
empty (`total_lines == 0`). -/
lemma code_compare_self (c : String) : code_compare c c = 1 := by
  unfold code_compare
  by_cases h : (splitlines c).length = 0
  · simp [h, lcsLen_self]
  · have hq : ((splitlines c).length : ℚ) ≠ 0 := by exact_mod_cast h
    simp [lcsLen_self, h, hq]

/-- A fold whose step preserves a predicate preserves it overall. -/
lemma foldl_preserves {α β : Type} (P : β → Prop) (f : β → α → β)
    (hf : ∀ b a, P b → P (f b a)) :
    ∀ (l : List α) (b : β), P b → P (l.foldl f b)
  | [], _, hb => hb
  | a :: l, b, hb => foldl_preserves P f hf l (f b a) (hf b a hb)

/-- The mirrored pair of writes `m[i,j] = v; m[j,i] = m[i,j]` preserves
symmetry of the matrix. -/
lemma pairwrite_symm (i j : ℕ) (v : ℚ) {M : ℕ → ℕ → ℚ}
    (hM : ∀ a b, M a b = M b a) (a b : ℕ) :
    updMat (updMat M i j v) j i v a b = updMat (updMat M i j v) j i v b a := by
  simp only [updMat]
  split_ifs with h1 h2 h3 h4 h5 h6 <;> first | rfl | tauto

lemma codeDiffMatrix_symm (codes : List String) (a b : ℕ) :
    codeDiffMatrix codes a b = codeDiffMatrix codes b a := by
  have h : ∀ x y, codeDiffMatrix codes x y = codeDiffMatrix codes y x := by
    unfold codeDiffMatrix
    refine foldl_preserves (fun M : ℕ → ℕ → ℚ => ∀ x y, M x y = M y x) _ ?_
      codes.enum _ (fun _ _ => rfl)
    intro M p hM
    refine foldl_preserves (fun M : ℕ → ℕ → ℚ => ∀ x y, M x y = M y x) _ ?_
      codes.enum M hM
    intro M' q hM'
    exact fun x y => pairwrite_symm p.1 q.1 _ hM' x y
  exact h a b

/-- Reading entry `i` of a materialised map-over-range row. -/
lemma getD_map_range {α : Type} (f : ℕ → α) (n i : ℕ) (d : α) (hi : i < n) :
    (((List.range n).map f).getD i d) = f i := by
  rw [List.getD_eq_getElem _ _ (by simpa using hi)]
  simp

lemma getD_map_range_oob {α : Type} (f : ℕ → α) (n i : ℕ) (d : α)
    (hi : ¬ i < n) :
    (((List.range n).map f).getD i d) = d := by
  apply List.getD_eq_default
  simpa using Nat.le_of_not_lt hi

/-- C5: the matrix returned by the code-diff similarity computation is
symmetric — entry `(i, j)` equals entry `(j, i)` for all index pairs (out of
range reads fall back to the same default on both sides). -/
theorem C5_code_diff_matrix_symmetric (codes : List String) (i j : ℕ) :
    (((code_diff_similarity codes).2.getD i []).getD j 0) =
    (((code_diff_similarity codes).2.getD j []).getD i 0) := by
  by_cases hc : codes = []
  · simp [code_diff_similarity, hc]
  · simp only [code_diff_similarity, if_neg hc]
    set n := codes.length with hn
    by_cases hi : i < n <;> by_cases hj : j < n
    · rw [getD_map_range _ n i _ hi, getD_map_range _ n j _ hj,
        getD_map_range _ n j _ hj, getD_map_range _ n i _ hi]
      exact codeDiffMatrix_symm codes i j
    · rw [getD_map_range _ n i _ hi, getD_map_range_oob _ n j _ hj,
        getD_map_range_oob _ n j _ hj]
      simp
    · rw [getD_map_range_oob _ n i _ hi, getD_map_range _ n j _ hj,
        getD_map_range_oob _ n i _ hi]
      simp
    · rw [getD_map_range_oob _ n i _ hi, getD_map_range_oob _ n j _ hj]
      simp

/-- C6: on the two-element input `[x, x]` (identical code, including two empty
code bodies), the code-diff similarity returns similarity `1` for every matrix
entry and mean similarity `1` for both items. -/
theorem C6_identical_codes (c : String) :
    code_diff_similarity [c, c] = ([some 1, some 1], [[1, 1], [1, 1]]) := by
  have h1 : code_compare c c = 1 := code_compare_self c
  have hne : ([c, c] : List String) ≠ [] := by simp
  simp [code_diff_similarity, hne, codeDiffMatrix, meanExclSelf, updMat,
    List.enum, List.enumFrom, List.range_succ, h1]

/-- C2 (counterexample): the claim says a single-item input yields empty
arrays.  On the single-item input `[""]` the code-diff similarity returns a
one-entry mean array — whose entry is the NaN of a mean over an empty slice —
and a 1×1 matrix, not empty arrays. -/
theorem C2_counterexample :
    code_diff_similarity [""] = ([none], [[1]]) ∧
    (code_diff_similarity [""]).1 ≠ [] ∧ (code_diff_similarity [""]).2 ≠ [] := by
  refine ⟨by decide, by decide, by decide⟩

/-- C2 (amended): only the empty input yields empty arrays.  A single-item
input yields a one-entry mean-similarity array whose entry is NaN (`none`, the
`np.mean` of an empty slice) and a 1×1 matrix containing the self-similarity
`1`; the description-similarity mean computation behaves the same way on a
single item, whatever matrix the embedding model produces. -/
theorem C2_amended (c : String) (M : ℕ → ℕ → ℚ) :
    code_diff_similarity [c] = ([none], [[1]]) ∧
    desc_similarity_mean M 1 = [none] := by
  have h1 : code_compare c c = 1 := code_compare_self c
  have hne : ([c] : List String) ≠ [] := by simp
  constructor
  · simp [code_diff_similarity, hne, codeDiffMatrix, meanExclSelf, updMat,
      List.enum, List.enumFrom, List.range_succ, h1]
  · simp [desc_similarity_mean, meanExclSelf, List.range_succ]

/-! ### Claim C7: max-diversity parent pairing -/

/-- Model of `np.argsort(l)`: the indices of `l` ordered by ascending value (stable). -/
def argsort (l : List ℚ) : List ℕ :=
  (List.range l.length).insertionSort (fun a b => l.getD a 0 ≤ l.getD b 0)

/-- Model of `itertools.combinations(l, k)`: all `k`-element sublists of `l`, in the
order `itertools` emits them. -/
def combinations {α : Type} : ℕ → List α → List (List α)
  | 0, _ => [[]]
  | _ + 1, [] => []
  | k + 1, a :: as => (combinations k as).map (a :: ·) ++ combinations (k + 1) as

/-- The parent-group construction of `max_divese_desc_get_parent_fn`
(population.py lines 365–404), parameterised by the description-similarity
outputs `mean_similarity` and `similarity_matrix` that the external
sentence-embedding model yields (an injected capability per spec §6).  The
`n_offspring` lowest-mean-similarity individuals seed one family each; for a
seed, the first combination of `n_parent - 1` co-parents whose frozen id-set
is not already scheduled is added (the `break` in the source).  The function
returns the scheduled parent-id sets; the source then emits exactly one
`PopulationQueryItem` per set, with that set as its parents. -/
def maxDiverseDescParentSets (mean_similarity : List ℚ)
    (similarity_matrix : List (List ℚ)) (n_parent n_offspring : ℕ) :
    List (Finset ℕ) :=
  let candidate_idxs := (argsort mean_similarity).take n_offspring
  candidate_idxs.foldl
    (fun parent_set candidate_idx =>
      let other_sim := similarity_matrix.getD candidate_idx []
      let others := (argsort other_sim).dropLast
      let other_comb := combinations (n_parent - 1) others
      match other_comb.find?
          (fun other => decide ((candidate_idx :: other).toFinset ∉ parent_set)) with
      | some other => parent_set ++ [(candidate_idx :: other).toFinset]
      | none => parent_set)
    []

/-- C7: no two of the emitted query items carry the same unordered parent-id
set — the scheduled parent-id sets are pairwise distinct, for every similarity
input and every arity. -/
theorem C7_parent_sets_pairwise_distinct (mean_similarity : List ℚ)
    (similarity_matrix : List (List ℚ)) (n_parent n_offspring : ℕ) :
    (maxDiverseDescParentSets mean_similarity similarity_matrix
      n_parent n_offspring).Nodup := by
  unfold maxDiverseDescParentSets
  refine foldl_preserves (fun S : List (Finset ℕ) => S.Nodup) _ ?_ _ []
    List.nodup_nil
  intro S c hS
  dsimp only
  split
  next other hf =>
    have hx : (c :: other).toFinset ∉ S := by
      have := List.find?_some hf
      simpa using this
    rw [List.nodup_append]
    refine ⟨hS, List.nodup_singleton _, ?_⟩
    intro a ha hax
    rw [List.mem_singleton] at hax
    subst hax
    exact hx ha
  next => exact hS

/-! ### Claim C4: the family-competition conflict rule -/

/-- The dict comprehension `{ind.id: ind for ind in ind_last_gen + ind_last_pop}`
(population.py line 293); a later individual with the same id overwrites an
earlier one. -/
def buildIndMap (inds : List Individual) : ℕ → Option Individual :=
  fun i => inds.foldl (fun acc ind => if ind.id = i then some ind else acc) none

/-- Lookup `all_ind_map[x].fitness` as a total function (the `KeyError` case, which
the selection never reaches on well-formed input, is given fitness `0`). -/
def mapFitness (m : ℕ → Option Individual) (i : ℕ) : ℚ :=
  ((m i).map Individual.fitness).getD 0

/-- Pool accumulation of `_family_competition_selection_fn` before conflict
resolution (population.py lines 293–304): the per-offspring family selections
are unioned into a candidate set and a substitute set, then every
last-population individual not substituted is added to the candidate set. -/
def familyCompetitionPools (ind_last_gen ind_last_pop : List Individual)
    (parent_size_threshold : ℕ) : Finset ℕ × Finset ℕ :=
  let fit := mapFitness (buildIndMap (ind_last_gen ++ ind_last_pop))
  let pools := ind_last_gen.foldl
    (fun (cs : Finset ℕ × Finset ℕ) ind =>
      let r := familySelection ind fit parent_size_threshold
      (cs.1 ∪ r.1.toFinset, cs.2 ∪ r.2.toFinset))
    (∅, ∅)
  let candidate_set := ind_last_pop.foldl
    (fun c ind => if ind.id ∉ pools.2 then insert ind.id c else c) pools.1
  (candidate_set, pools.2)

/-- The conflict-resolution step (population.py lines 306–313): when the two
pools intersect, an aggressive run removes the intersection from the candidate
set, a conservative run removes it from the substitute set. -/
def resolveConflict (is_aggressive : Bool) (pools : Finset ℕ × Finset ℕ) :
    Finset ℕ × Finset ℕ :=
  let intersection := pools.1 ∩ pools.2
  if 0 < intersection.card then
    match is_aggressive with
    | true => (pools.1 \ intersection, pools.2)
    | false => (pools.1, pools.2 \ intersection)
  else pools

/-- Embedding of `_family_competition_selection_fn` (population.py lines
287–319): after pool construction and conflict resolution, candidates then
substitutes are sorted by fitness descending, concatenated, mapped back to
individuals and truncated to `n_parent`.  Python iterates each set in
unspecified order before the stable sort; the model fixes ascending-id order
(no claim depends on the order among equal-fitness individuals). -/
def family_competition_selection_fn (parent_size_threshold : ℕ)
    (is_aggressive : Bool) (ind_last_gen ind_last_pop : List Individual)
    (n_parent : ℕ) : List Individual :=
  let m := buildIndMap (ind_last_gen ++ ind_last_pop)
  let fit := mapFitness m
  let pools := resolveConflict is_aggressive
    (familyCompetitionPools ind_last_gen ind_last_pop parent_size_threshold)
  let candidates := sortDescByFitness fit (pools.1.sort (· ≤ ·)) ++
    sortDescByFitness fit (pools.2.sort (· ≤ ·))
  (candidates.filterMap m).take n_parent

/-- C4: an id landing in both the candidate pool and the substitute pool is
resolved by the `is_aggressive` flag — aggressive mode drops it from the
candidate pool, conservative mode drops it from the substitute pool — and the
resolved pools are disjoint. -/
theorem C4_conflict_resolved_by_flag (ind_last_gen ind_last_pop : List Individual)
    (parent_size_threshold : ℕ) (is_aggressive : Bool) (x : ℕ)
    (hx : x ∈ (familyCompetitionPools ind_last_gen ind_last_pop
            parent_size_threshold).1 ∩
          (familyCompetitionPools ind_last_gen ind_last_pop
            parent_size_threshold).2) :
    Disjoint (resolveConflict is_aggressive
        (familyCompetitionPools ind_last_gen ind_last_pop
          parent_size_threshold)).1
      (resolveConflict is_aggressive
        (familyCompetitionPools ind_last_gen ind_last_pop
          parent_size_threshold)).2 ∧
    (is_aggressive = true →
      x ∉ (resolveConflict is_aggressive
            (familyCompetitionPools ind_last_gen ind_last_pop
              parent_size_threshold)).1 ∧
      x ∈ (resolveConflict is_aggressive
            (familyCompetitionPools ind_last_gen ind_last_pop
              parent_size_threshold)).2) ∧
    (is_aggressive = false →
      x ∈ (resolveConflict is_aggressive
            (familyCompetitionPools ind_last_gen ind_last_pop
              parent_size_threshold)).1 ∧
      x ∉ (resolveConflict is_aggressive
            (familyCompetitionPools ind_last_gen ind_last_pop
              parent_size_threshold)).2) := by
  set P := familyCompetitionPools ind_last_gen ind_last_pop parent_size_threshold
    with hP
  have hcard : 0 < (P.1 ∩ P.2).card :=
    Finset.card_pos.mpr ⟨x, hx⟩
  have hx1 : x ∈ P.1 := (Finset.mem_inter.mp hx).1
  have hx2 : x ∈ P.2 := (Finset.mem_inter.mp hx).2
  unfold resolveConflict
  rw [if_pos hcard]
  cases is_aggressive with
  | true =>
    dsimp only
    refine ⟨?_, fun _ => ⟨?_, hx2⟩, fun h => by simp at h⟩
    · rw [Finset.disjoint_left]
      intro a ha hb
      rw [Finset.mem_sdiff] at ha
      exact ha.2 (Finset.mem_inter.mpr ⟨ha.1, hb⟩)
    · rw [Finset.mem_sdiff]
      intro h
      exact h.2 hx
  | false =>
    dsimp only
    refine ⟨?_, fun h => by simp at h, fun _ => ⟨hx1, ?_⟩⟩
    · rw [Finset.disjoint_left]
      intro a ha hb
      rw [Finset.mem_sdiff] at hb
      exact hb.2 (Finset.mem_inter.mpr ⟨ha, hb.1⟩)
    · rw [Finset.mem_sdiff]
      intro h
      exact h.2 hx

/-- C4 at a concrete input: individual `1` (the shared parent) is kept by the
family of offspring `10` but substituted by the family of offspring `11`, so
it lands in both pools; the aggressive run drops it from the candidate
pool. -/
theorem C4_witness :
    Disjoint (resolveConflict true
        (familyCompetitionPools [⟨10, [1], 1⟩, ⟨11, [1], 9⟩] [⟨1, [], 5⟩] 1)).1
      (resolveConflict true
        (familyCompetitionPools [⟨10, [1], 1⟩, ⟨11, [1], 9⟩] [⟨1, [], 5⟩] 1)).2 ∧
    (true = true →
      (1 : ℕ) ∉ (resolveConflict true
        (familyCompetitionPools [⟨10, [1], 1⟩, ⟨11, [1], 9⟩] [⟨1, [], 5⟩] 1)).1 ∧
      (1 : ℕ) ∈ (resolveConflict true
        (familyCompetitionPools [⟨10, [1], 1⟩, ⟨11, [1], 9⟩] [⟨1, [], 5⟩] 1)).2) ∧
    (true = false →
      (1 : ℕ) ∈ (resolveConflict true
        (familyCompetitionPools [⟨10, [1], 1⟩, ⟨11, [1], 9⟩] [⟨1, [], 5⟩] 1)).1 ∧
      (1 : ℕ) ∉ (resolveConflict true
        (familyCompetitionPools [⟨10, [1], 1⟩, ⟨11, [1], 9⟩] [⟨1, [], 5⟩] 1)).2) :=
  C4_conflict_resolved_by_flag [⟨10, [1], 1⟩, ⟨11, [1], 9⟩] [⟨1, [], 5⟩] 1 true 1
    (by decide)

/-! ### Claim C8: diversity-aware selection -/

/-- The comparator `cmp_inds` (population.py lines 343–350) on
`(individual, mean-similarity)` pairs: when the score gap exceeds the
threshold fitness dominates, otherwise lower mean similarity wins. -/
def cmp_inds (score : Individual → ℚ) (fitness_threshold : ℚ)
    (a b : Individual × ℚ) : ℚ :=
  if fitness_threshold < |score a.1 - score b.1| then score a.1 - score b.1
  else -(a.2 - b.2)

/-- Embedding of `diversity_awarness_selection_fn` (population.py lines
323–363).  The external capabilities are injected: `score` models
`res_handler.eval_result.score` and `sim` models the mean similarities that
`desc_similarity` derives from the sentence-embedding model.  Python's stable
`sorted(..., key=cmp_to_key(cmp_inds), reverse=True)` is modelled as a stable
sort placing `a` before `b` when `cmp_inds a b ≥ 0`. -/
def diversity_awarness_selection_fn (score : Individual → ℚ)
    (sim : List Individual → List ℚ) (next_inds last_inds : List Individual)
    (n_parent : ℕ) (fitness_threshold : Option ℚ) : List Individual :=
  let candidates := last_inds ++ next_inds
  if candidates.length ≤ n_parent then candidates
  else
    let mean_similarity := sim candidates
    let threshold :=
      match fitness_threshold with
      | some t => t
      | none =>
        let scores := candidates.map score
        let mean_score := scores.sum / (scores.length : ℚ)
        (scores.map (fun s => |s - mean_score|)).sum / (scores.length : ℚ)
    let tuple_cands := (candidates.zip mean_similarity).insertionSort
      (fun a b => 0 ≤ cmp_inds score threshold a b)
    (tuple_cands.map Prod.fst).take n_parent

/-- C8: whenever the combined candidate pool (previous survivors followed by
the new generation, as the source concatenates them) is no larger than
`n_parent`, the selection returns it unchanged — for every score assignment
and every similarity capability, so neither is consulted. -/
theorem C8_small_pool_returned_unchanged (score : Individual → ℚ)
    (sim : List Individual → List ℚ) (next_inds last_inds : List Individual)
    (n_parent : ℕ) (fitness_threshold : Option ℚ)
    (h : next_inds.length + last_inds.length ≤ n_parent) :
    diversity_awarness_selection_fn score sim next_inds last_inds n_parent
      fitness_threshold = last_inds ++ next_inds := by
  unfold diversity_awarness_selection_fn
  rw [if_pos (by rw [List.length_append]; omega)]

/-- C8 at a concrete input: two candidates, `n_parent = 2`, degenerate score
and similarity oracles. -/
theorem C8_witness :
    diversity_awarness_selection_fn (fun _ => 0) (fun _ => [])
      [⟨0, [], 0⟩] [⟨1, [], 0⟩] 2 none = [⟨1, [], 0⟩, ⟨0, [], 0⟩] :=
  C8_small_pool_returned_unchanged (fun _ => 0) (fun _ => [])
    [⟨0, [], 0⟩] [⟨1, [], 0⟩] 2 none (by decide)

/-! ### Claim C9: persistence error handling -/

/-- The attributes of `Population` that `save`/`load` touch (population.py
lines 33–41); `individuals` stands for the abstract population contents, which
`save` never mutates. -/
structure PopulationState where
  name : String
  save_dir : Option String
  save_dir_suffix : Option String
  individuals : List Individual
deriving Repr, DecidableEq

/-- Embedding of `Population._safe_file_name` (population.py lines 100–101). -/
def safeFileName (name : String) : String :=
  ((name.replace " " "").replace ":" "_").replace "/" "_"

/-- Embedding of `Population._update_save_dir_if_need` (population.py lines 103–109):
initialises `save_dir` and the timestamped save-dir suffix when unset.
`class_name` and `time_stamp` inject the runtime values read there. -/
def update_save_dir_if_need (class_name time_stamp : String)
    (s : PopulationState) : PopulationState :=
  let s1 := if s.save_dir = none
    then { s with save_dir := some "Experiments/pop_temp" } else s
  if s1.save_dir_suffix = none then
    let sfx := class_name ++ "_" ++ safeFileName s1.name ++ "_" ++ time_stamp
    { s1 with save_dir_suffix := some sfx }
  else s1

/-- Error-flow embedding of `Population.save` (population.py lines 151–172).
The file-system effects are injected as outcomes: `makedirs` models
`os.makedirs` (line 156, outside the `try`), `dump` models
`open` + `pickle.dump` (lines 168–170, inside the `try` whose `except` logs
and swallows).  Returns the call's outcome and the state after the call. -/
def save (class_name time_stamp : String) (s : PopulationState)
    (makedirs : Except String Unit) (dump : Except String Unit) :
    Except String Unit × PopulationState :=
  let s1 := update_save_dir_if_need class_name time_stamp s
  match makedirs with
  | .error e => (.error e, s1)
  | .ok _ =>
    match dump with
    | .ok _ => (.ok (), s1)
    | .error _ => (.ok (), s1)

/-- Error-flow embedding of `Population.load` (population.py lines 174–184):
`path_exists` models `os.path.exists`, `read` models `open` + `pickle.load`.
A `none` filepath raises (`os.path.exists(None)` is a `TypeError`); an
existing path propagates the read outcome; a nonexistent path raises
`FileNotFoundError`. -/
def load (filepath : Option String) (path_exists : String → Bool)
    (read : String → Except String PopulationState) :
    Except String PopulationState :=
  match filepath with
  | none => .error "TypeError"
  | some fp =>
    if path_exists fp then read fp
    else .error "FileNotFoundError"

/-- C9 (counterexample): the claim asserts a failing save leaves the in-memory
state unchanged.  On a population whose `save_dir` is unset, a save whose
serialization fails returns normally (the failure is swallowed) but the state
afterwards differs from the state before: `save_dir` has been initialised. -/
theorem C9_counterexample :
    (save "ESPopulation" "0101000000" ⟨"pop", none, some "sfx", []⟩
      (Except.ok ()) (Except.error "PicklingError")).1 = Except.ok () ∧
    (save "ESPopulation" "0101000000" ⟨"pop", none, some "sfx", []⟩
      (Except.ok ()) (Except.error "PicklingError")).2 ≠
      ⟨"pop", none, some "sfx", []⟩ := by
  exact ⟨rfl, by decide⟩

/-- C9 (amended): a save whose directory creation succeeds never raises —
a serialization failure is swallowed — and its only in-memory effect, failing
or not, is the `save_dir`/suffix initialisation of
`_update_save_dir_if_need`; `load` raises `FileNotFoundError` on a
nonexistent path and propagates the error of an unreadable one. -/
theorem C9_amended (class_name time_stamp : String) (s : PopulationState)
    (dump : Except String Unit) (fp fp2 : String) (pe pe2 : String → Bool)
    (read read2 : String → Except String PopulationState) (err : String)
    (h : pe fp = false) (h2 : pe2 fp2 = true)
    (h3 : read2 fp2 = Except.error err) :
    (save class_name time_stamp s (Except.ok ()) dump).1 = Except.ok () ∧
    (save class_name time_stamp s (Except.ok ()) dump).2 =
      update_save_dir_if_need class_name time_stamp s ∧
    load (some fp) pe read = Except.error "FileNotFoundError" ∧
    load (some fp2) pe2 read2 = Except.error err := by
  refine ⟨?_, ?_, ?_, ?_⟩
  · cases dump <;> rfl
  · cases dump <;> rfl
  · simp [load, h]
  · simp [load, h2, h3]

/-- C9 (amended) at a concrete input: a failing dump on a fully-initialised
state, a nonexistent path and an unreadable path. -/
theorem C9_amended_witness :
    (save "ESPopulation" "0101000000" ⟨"pop", some "d", some "sfx", []⟩
      (Except.ok ()) (Except.error "PicklingError")).1 = Except.ok () ∧
    (save "ESPopulation" "0101000000" ⟨"pop", some "d", some "sfx", []⟩
      (Except.ok ()) (Except.error "PicklingError")).2 =
      update_save_dir_if_need "ESPopulation" "0101000000"
        ⟨"pop", some "d", some "sfx", []⟩ ∧
    load (some "missing.pkl") (fun _ => false)
      (fun _ => Except.error "unused") = Except.error "FileNotFoundError" ∧
    load (some "corrupt.pkl") (fun _ => true)
      (fun _ => Except.error "UnpicklingError") =
      Except.error "UnpicklingError" :=
  C9_amended "ESPopulation" "0101000000" ⟨"pop", some "d", some "sfx", []⟩
    (Except.error "PicklingError") "missing.pkl" "corrupt.pkl"
    (fun _ => false) (fun _ => true) (fun _ => Except.error "unused")
    (fun _ => Except.error "UnpicklingError") "UnpicklingError"
    rfl rfl rfl

end LLAMBO
